import Mathlib

/-!
Shallow embedding of `pypower/gausspf.py` (Gauss-Seidel power flow solver).

The solver state is a pair of complex vectors (voltages `V`, injections
`Sbus`) indexed by `Fin n`.  Scalars are taken in an arbitrary linear
ordered field `K` (instantiated with `ℚ` for executable witnesses and with
`ℝ` when the square root in the PV magnitude renormalization matters);
complex numbers over `K` are pairs `CC K`.  The square-root function used
by `abs` on complex numbers is an explicit parameter `sqrt : K → K`, since
only the magnitude renormalization step depends on it.
-/

/-- Complex numbers over a scalar field `K`, as used by the solver. -/
structure CC (K : Type) where
  re : K
  im : K
deriving DecidableEq, Repr

namespace CC

variable {K : Type} [Field K]

instance : Add (CC K) := ⟨fun z w => ⟨z.re + w.re, z.im + w.im⟩⟩

instance : Sub (CC K) := ⟨fun z w => ⟨z.re - w.re, z.im - w.im⟩⟩

instance : Neg (CC K) := ⟨fun z => ⟨-z.re, -z.im⟩⟩

instance : Mul (CC K) :=
  ⟨fun z w => ⟨z.re * w.re - z.im * w.im, z.re * w.im + z.im * w.re⟩⟩

instance : Zero (CC K) := ⟨⟨0, 0⟩⟩

instance : One (CC K) := ⟨⟨1, 0⟩⟩

/-- Complex conjugate. -/
def conj (z : CC K) : CC K := ⟨z.re, -z.im⟩

/-- Squared magnitude `re² + im²`. -/
def normSq (z : CC K) : K := z.re * z.re + z.im * z.im

/-- Complex division `z / w = z·conj w / |w|²` (0 when `w = 0`, by the
field convention `x / 0 = 0`). -/
instance : Div (CC K) :=
  ⟨fun z w =>
    ⟨(z.re * w.re + z.im * w.im) / normSq w,
     (z.im * w.re - z.re * w.im) / normSq w⟩⟩

/-- Embed a real scalar as a complex number. -/
def ofRe (a : K) : CC K := ⟨a, 0⟩

/-- Complex magnitude, relative to an abstract square root on `K`. -/
def cabs (sqrt : K → K) (z : CC K) : K := sqrt (normSq z)

instance : AddCommMonoid (CC K) where
  add_assoc := by
    rintro ⟨a1, a2⟩ ⟨b1, b2⟩ ⟨c1, c2⟩
    show (⟨a1 + b1 + c1, a2 + b2 + c2⟩ : CC K)
      = ⟨a1 + (b1 + c1), a2 + (b2 + c2)⟩
    rw [add_assoc a1, add_assoc a2]
  zero_add := by
    rintro ⟨a1, a2⟩
    show (⟨0 + a1, 0 + a2⟩ : CC K) = ⟨a1, a2⟩
    rw [zero_add, zero_add]
  add_zero := by
    rintro ⟨a1, a2⟩
    show (⟨a1 + 0, a2 + 0⟩ : CC K) = ⟨a1, a2⟩
    rw [add_zero, add_zero]
  add_comm := by
    rintro ⟨a1, a2⟩ ⟨b1, b2⟩
    show (⟨a1 + b1, a2 + b2⟩ : CC K) = ⟨b1 + a1, b2 + a2⟩
    rw [add_comm a1, add_comm a2]
  nsmul := nsmulRec

end CC

namespace GS

variable {K : Type} [LinearOrderedField K] {n : ℕ}

/-- Row-times-vector product `Ybus[k,:] * V = Σ_j Y[k,j]·V[j]`. -/
def dotRow (row V : Fin n → CC K) : CC K := ∑ j, row j * V j

/-- Elementwise power mismatch `mis = V ⊙ conj(Ybus·V) − Sbus`
(line `mis = V * conj(Ybus * V) - Sbus`). -/
def mis (Ybus : Fin n → Fin n → CC K) (Sbus V : Fin n → CC K)
    (k : Fin n) : CC K :=
  V k * CC.conj (dotRow (Ybus k) V) - Sbus k

/-- The pre-loop mismatch vector
`F = r_[mis[pvpq].real, mis[pq].imag]` with `pvpq = r_[pv, pq]`. -/
def F0vec (Ybus : Fin n → Fin n → CC K) (Sbus V : Fin n → CC K)
    (pv pq : List (Fin n)) : List K :=
  ((pv ++ pq).map fun k => (mis Ybus Sbus V k).re) ++
    (pq.map fun k => (mis Ybus Sbus V k).im)

/-- The in-loop mismatch vector
`F = r_[mis[pv].real, mis[pq].real, mis[pq].imag]`. -/
def Fvec (Ybus : Fin n → Fin n → CC K) (Sbus V : Fin n → CC K)
    (pv pq : List (Fin n)) : List K :=
  (pv.map fun k => (mis Ybus Sbus V k).re) ++
    ((pq.map fun k => (mis Ybus Sbus V k).re) ++
      (pq.map fun k => (mis Ybus Sbus V k).im))

/-- Infinity norm `linalg.norm(F, Inf)`: the maximum of the absolute
values (0 for the empty vector). -/
def normInf (xs : List K) : K := xs.foldr (fun x m => max |x| m) 0

/-- One Gauss-Seidel update of a single bus `k`:
`tmp = (conj(Sbus[k]/V[k]) - Ybus[k,:]*V) / Ybus[k,k]; V[k] = V[k] + tmp`. -/
def busUpdate (Ybus : Fin n → Fin n → CC K) (Sbus V : Fin n → CC K)
    (k : Fin n) : Fin n → CC K :=
  Function.update V k
    (V k + (CC.conj (Sbus k / V k) - dotRow (Ybus k) V) / Ybus k k)

/-- The PQ-bus loop: `for k in pq: ... V[k] = V[k] + tmp`, in list order,
each update applied immediately to the shared voltage vector. -/
def pqSweep (Ybus : Fin n → Fin n → CC K) (Sbus : Fin n → CC K)
    (V : Fin n → CC K) (pq : List (Fin n)) : Fin n → CC K :=
  pq.foldl (fun W k => busUpdate Ybus Sbus W k) V

/-- One PV-bus update: refresh the reactive injection
`Sbus[k] = Sbus[k].real + 1j * (V[k]*conj(Ybus[k,:]*V)).imag`, then apply
the same voltage correction as at PQ buses using the refreshed `Sbus[k]`. -/
def pvStep (Ybus : Fin n → Fin n → CC K)
    (st : (Fin n → CC K) × (Fin n → CC K)) (k : Fin n) :
    (Fin n → CC K) × (Fin n → CC K) :=
  let q : K := (st.1 k * CC.conj (dotRow (Ybus k) st.1)).im
  let S' : Fin n → CC K := Function.update st.2 k ⟨(st.2 k).re, q⟩
  (busUpdate Ybus S' st.1 k, S')

/-- The per-bus PV loop (before renormalization), in list order. -/
def pvLoop (Ybus : Fin n → Fin n → CC K)
    (st : (Fin n → CC K) × (Fin n → CC K)) (pv : List (Fin n)) :
    (Fin n → CC K) × (Fin n → CC K) :=
  pv.foldl (pvStep Ybus) st

/-- The batch magnitude renormalization
`V[pv] = Vm[pv] * V[pv] / abs(V[pv])`, applied to all PV buses at once. -/
def renorm (sqrt : K → K) (Vm : Fin n → K) (pv : List (Fin n))
    (V : Fin n → CC K) : Fin n → CC K :=
  fun j => if j ∈ pv then
    CC.ofRe (Vm j) * V j / CC.ofRe (CC.cabs sqrt (V j)) else V j

/-- One full sweep of the while-loop body: PQ updates, then (when the PV
set is non-empty) the PV loop followed by the batch renormalization. -/
def sweep (sqrt : K → K) (Ybus : Fin n → Fin n → CC K) (Vm : Fin n → K)
    (pv pq : List (Fin n)) (st : (Fin n → CC K) × (Fin n → CC K)) :
    (Fin n → CC K) × (Fin n → CC K) :=
  let V1 := pqSweep Ybus st.2 st.1 pq
  if pv.isEmpty then (V1, st.2)
  else
    let st2 := pvLoop Ybus (V1, st.2) pv
    (renorm sqrt Vm pv st2.1, st2.2)

/-- Result of the solver: final voltages, final (possibly mutated)
injections, convergence flag, iteration count. -/
structure GSResult (K : Type) (n : ℕ) where
  V : Fin n → CC K
  Sbus : Fin n → CC K
  converged : Bool
  iters : ℕ
deriving DecidableEq

/-- The Gauss-Seidel while-loop, fuelled by the remaining iteration
budget `max_it - i`; `i` is the iteration counter already performed. -/
def loop (sqrt : K → K) (tol : K) (Ybus : Fin n → Fin n → CC K)
    (Vm : Fin n → K) (pv pq : List (Fin n)) :
    ℕ → (Fin n → CC K) × (Fin n → CC K) → ℕ → GSResult K n
  | 0, st, i => ⟨st.1, st.2, false, i⟩
  | fuel + 1, st, i =>
    let st' := sweep sqrt Ybus Vm pv pq st
    if normInf (Fvec Ybus st'.2 st'.1 pv pq) < tol then
      ⟨st'.1, st'.2, true, i + 1⟩
    else
      loop sqrt tol Ybus Vm pv pq fuel st' (i + 1)

/-- The solver `gausspf(Ybus, Sbus, V0, ref, pv, pq)` with options
`tol = PF_TOL`, `max_it = PF_MAX_IT_GS`.  `Vm = abs(V0)` is captured
before any mutation; the `ref` argument is accepted but (as in the
source) never used by the numerics. -/
def gausspf (sqrt : K → K) (tol : K) (max_it : ℤ)
    (Ybus : Fin n → Fin n → CC K) (Sbus V0 : Fin n → CC K)
    (ref : Fin n) (pv pq : List (Fin n)) : GSResult K n :=
  let Vm : Fin n → K := fun j => CC.cabs sqrt (V0 j)
  if normInf (F0vec Ybus Sbus V0 pv pq) < tol then
    ⟨V0, Sbus, true, 0⟩
  else
    loop sqrt tol Ybus Vm pv pq max_it.toNat (V0, Sbus) 0

/-- Modelled from the spec (§3, §4.4): the spec describes the pre-loop
mismatch vector as "active-power mismatch at swing+PQ ... and
reactive-power mismatch at PQ buses", i.e. real part at the swing
(reference) bus and the PQ buses followed by imaginary part at the PQ
buses.  Defined only to compare against the source's `F0vec`. -/
def F0vecSpec (Ybus : Fin n → Fin n → CC K) (Sbus V : Fin n → CC K)
    (ref : Fin n) (pq : List (Fin n)) : List K :=
  ((ref :: pq).map fun k => (mis Ybus Sbus V k).re) ++
    (pq.map fun k => (mis Ybus Sbus V k).im)

/-- Modelled from the spec (glossary): "Jacobi iteration ... uses only
previous-sweep values": every PQ bus correction is computed from the
voltage vector as it stood at the start of the sweep.  Defined only as
the contrast class for the Gauss-Seidel order-sensitivity claim. -/
def jacobiPQSweep (Ybus : Fin n → Fin n → CC K) (Sbus : Fin n → CC K)
    (V : Fin n → CC K) (pq : List (Fin n)) : Fin n → CC K :=
  fun j => if j ∈ pq then busUpdate Ybus Sbus V j j else V j

/-- Progress messages emitted on stdout, abstracted from the format
strings of the source. -/
inductive Msg (K : Type) where
  | header : Msg K
  | tableHeader : Msg K
  | trace : ℕ → K → Msg K
  | convergedIt0 : Msg K
  | convergedAt : ℕ → Msg K
  | didNotConverge : ℕ → Msg K
deriving DecidableEq

/-- The while-loop together with the verbosity-controlled output log. -/
def loopV (verbose : ℕ) (sqrt : K → K) (tol : K)
    (Ybus : Fin n → Fin n → CC K) (Vm : Fin n → K) (pv pq : List (Fin n)) :
    ℕ → (Fin n → CC K) × (Fin n → CC K) → ℕ → List (Msg K) →
      GSResult K n × List (Msg K)
  | 0, st, i, log => (⟨st.1, st.2, false, i⟩, log)
  | fuel + 1, st, i, log =>
    let st' := sweep sqrt Ybus Vm pv pq st
    let nF := normInf (Fvec Ybus st'.2 st'.1 pv pq)
    let log1 := log ++ (if 1 < verbose then [Msg.trace (i + 1) nF] else [])
    if nF < tol then
      (⟨st'.1, st'.2, true, i + 1⟩,
        log1 ++ (if 0 < verbose then [Msg.convergedAt (i + 1)] else []))
    else
      loopV verbose sqrt tol Ybus Vm pv pq fuel st' (i + 1) log1

/-- The solver together with its verbosity-controlled output log,
mirroring every `sys.stdout.write` of the source. -/
def gausspfV (verbose : ℕ) (sqrt : K → K) (tol : K) (max_it : ℤ)
    (Ybus : Fin n → Fin n → CC K) (Sbus V0 : Fin n → CC K)
    (ref : Fin n) (pv pq : List (Fin n)) : GSResult K n × List (Msg K) :=
  let Vm : Fin n → K := fun j => CC.cabs sqrt (V0 j)
  let nF0 := normInf (F0vec Ybus Sbus V0 pv pq)
  let log0 : List (Msg K) :=
    (if 0 < verbose then [Msg.header] else []) ++
      (if 1 < verbose then [Msg.tableHeader, Msg.trace 0 nF0] else [])
  if nF0 < tol then
    (⟨V0, Sbus, true, 0⟩,
      log0 ++ (if 1 < verbose then [Msg.convergedIt0] else []))
  else
    let r := loopV verbose sqrt tol Ybus Vm pv pq max_it.toNat (V0, Sbus) 0 log0
    (r.1,
      r.2 ++ (if 0 < verbose ∧ r.1.converged = false then
        [Msg.didNotConverge r.1.iters] else []))

end GS

namespace GSEx

open GS

/-- Shorthand: a real rational as a complex number. -/
def q (a : ℚ) : CC ℚ := ⟨a, 0⟩

/-- Example 2-bus admittance matrix `[[1,-1],[-1,1]]`. -/
def Y2 : Fin 2 → Fin 2 → CC ℚ := fun i j => if i = j then q 1 else q (-1)

/-- Example flat-start voltage vector `[1, 1]`. -/
def V2 : Fin 2 → CC ℚ := fun _ => q 1

/-- Example injections `[5, 0]`: a large mismatch at the swing bus only. -/
def S2 : Fin 2 → CC ℚ := fun j => if j = 0 then q 5 else q 0

/-- Example 3-bus admittance matrix `[[2,-1,-1],[-1,2,-1],[-1,-1,2]]`. -/
def Y3 : Fin 3 → Fin 3 → CC ℚ := fun i j => if i = j then q 2 else q (-1)

/-- Example flat-start voltage vector `[1, 1, 1]`. -/
def V3 : Fin 3 → CC ℚ := fun _ => q 1

/-- Example injections `[0, -1, -1]` (loads at the two PQ buses). -/
def S3 : Fin 3 → CC ℚ := fun j => if j = 0 then q 0 else q (-1)

/-- Example 2-bus admittance matrix over `ℝ` for the PV-magnitude claim. -/
def Y2R : Fin 2 → Fin 2 → CC ℝ := fun i j =>
  if i = j then ⟨1, 0⟩ else ⟨-1, 0⟩

/-- Example flat-start voltage vector `[1, 1]` over `ℝ`. -/
def V2R : Fin 2 → CC ℝ := fun _ => ⟨1, 0⟩

/-- Example injections `[5, 0]` over `ℝ`. -/
def S2R : Fin 2 → CC ℝ := fun j => if j = 0 then ⟨5, 0⟩ else ⟨0, 0⟩

end GSEx

/-! ## Basic lemmas about the embedded operations -/

namespace CC

variable {K : Type} [Field K]

theorem add_def (z w : CC K) : z + w = ⟨z.re + w.re, z.im + w.im⟩ := rfl

theorem sub_def (z w : CC K) : z - w = ⟨z.re - w.re, z.im - w.im⟩ := rfl

theorem mul_def (z w : CC K) :
    z * w = ⟨z.re * w.re - z.im * w.im, z.re * w.im + z.im * w.re⟩ := rfl

theorem div_def (z w : CC K) :
    z / w = ⟨(z.re * w.re + z.im * w.im) / normSq w,
             (z.im * w.re - z.re * w.im) / normSq w⟩ := rfl

theorem ext_iff {z w : CC K} : z = w ↔ z.re = w.re ∧ z.im = w.im := by
  constructor
  · rintro rfl; exact ⟨rfl, rfl⟩
  · cases z; cases w; rintro ⟨h1, h2⟩; cases h1; cases h2; rfl

end CC

namespace CC

variable {K : Type} [LinearOrderedField K]

theorem normSq_eq_zero_iff {z : CC K} : normSq z = 0 ↔ z = 0 := by
  constructor
  · intro h
    rcases (add_eq_zero_iff_of_nonneg (mul_self_nonneg z.re)
      (mul_self_nonneg z.im)).mp h with ⟨h1, h2⟩
    have hre := mul_self_eq_zero.mp h1
    have him := mul_self_eq_zero.mp h2
    cases z
    simp only at hre him
    rw [ext_iff]
    exact ⟨hre, him⟩
  · rintro rfl
    show (0 : K) * 0 + 0 * 0 = 0
    ring

end CC

namespace GS

variable {K : Type} [LinearOrderedField K] {n : ℕ}

/-- The pre-loop and in-loop mismatch vectors are built from the same
index selection: `r_[mis[pv ++ pq].real, mis[pq].imag]` is the same list
as `r_[mis[pv].real, mis[pq].real, mis[pq].imag]`. -/
theorem F0vec_eq_Fvec (Ybus : Fin n → Fin n → CC K) (Sbus V : Fin n → CC K)
    (pv pq : List (Fin n)) :
    F0vec Ybus Sbus V pv pq = Fvec Ybus Sbus V pv pq := by
  simp [F0vec, Fvec, List.map_append, List.append_assoc]

theorem pqSweep_cons (Ybus : Fin n → Fin n → CC K) (S V : Fin n → CC K)
    (k : Fin n) (rest : List (Fin n)) :
    pqSweep Ybus S V (k :: rest) = pqSweep Ybus S (busUpdate Ybus S V k) rest :=
  rfl

theorem pqSweep_append (Ybus : Fin n → Fin n → CC K) (S V : Fin n → CC K)
    (l1 l2 : List (Fin n)) :
    pqSweep Ybus S V (l1 ++ l2) = pqSweep Ybus S (pqSweep Ybus S V l1) l2 :=
  List.foldl_append _ _ _ _

theorem pqSweep_not_mem (Ybus : Fin n → Fin n → CC K) (S : Fin n → CC K) :
    ∀ (pq : List (Fin n)) (V : Fin n → CC K) (j : Fin n), j ∉ pq →
      pqSweep Ybus S V pq j = V j := by
  intro pq
  induction pq with
  | nil => intro V j _; rfl
  | cons k rest ih =>
    intro V j h
    rw [List.mem_cons, not_or] at h
    calc pqSweep Ybus S V (k :: rest) j
        = pqSweep Ybus S (busUpdate Ybus S V k) rest j := rfl
      _ = busUpdate Ybus S V k j := ih _ j h.2
      _ = V j := Function.update_noteq h.1 _ _

theorem pvLoop_cons (Ybus : Fin n → Fin n → CC K)
    (st : (Fin n → CC K) × (Fin n → CC K)) (k : Fin n)
    (rest : List (Fin n)) :
    pvLoop Ybus st (k :: rest) = pvLoop Ybus (pvStep Ybus st k) rest :=
  rfl

theorem pvLoop_append (Ybus : Fin n → Fin n → CC K)
    (st : (Fin n → CC K) × (Fin n → CC K)) (l1 l2 : List (Fin n)) :
    pvLoop Ybus st (l1 ++ l2) = pvLoop Ybus (pvLoop Ybus st l1) l2 :=
  List.foldl_append _ _ _ _

theorem pvStep_fst_apply_ne (Ybus : Fin n → Fin n → CC K)
    (st : (Fin n → CC K) × (Fin n → CC K)) (k j : Fin n) (h : j ≠ k) :
    (pvStep Ybus st k).1 j = st.1 j :=
  Function.update_noteq h _ _

theorem pvStep_snd_apply_ne (Ybus : Fin n → Fin n → CC K)
    (st : (Fin n → CC K) × (Fin n → CC K)) (k j : Fin n) (h : j ≠ k) :
    (pvStep Ybus st k).2 j = st.2 j :=
  Function.update_noteq h _ _

theorem pvStep_snd_re (Ybus : Fin n → Fin n → CC K)
    (st : (Fin n → CC K) × (Fin n → CC K)) (k j : Fin n) :
    ((pvStep Ybus st k).2 j).re = (st.2 j).re := by
  by_cases h : j = k
  · subst h
    show (Function.update st.2 j _ j).re = _
    rw [Function.update_same]
  · rw [pvStep_snd_apply_ne Ybus st k j h]

theorem pvLoop_fst_not_mem (Ybus : Fin n → Fin n → CC K) :
    ∀ (pv : List (Fin n)) (st : (Fin n → CC K) × (Fin n → CC K)) (j : Fin n),
      j ∉ pv → (pvLoop Ybus st pv).1 j = st.1 j := by
  intro pv
  induction pv with
  | nil => intro st j _; rfl
  | cons k rest ih =>
    intro st j h
    rw [List.mem_cons, not_or] at h
    rw [pvLoop_cons, ih _ j h.2, pvStep_fst_apply_ne Ybus st k j h.1]

theorem pvLoop_snd_not_mem (Ybus : Fin n → Fin n → CC K) :
    ∀ (pv : List (Fin n)) (st : (Fin n → CC K) × (Fin n → CC K)) (j : Fin n),
      j ∉ pv → (pvLoop Ybus st pv).2 j = st.2 j := by
  intro pv
  induction pv with
  | nil => intro st j _; rfl
  | cons k rest ih =>
    intro st j h
    rw [List.mem_cons, not_or] at h
    rw [pvLoop_cons, ih _ j h.2, pvStep_snd_apply_ne Ybus st k j h.1]

theorem pvLoop_snd_re (Ybus : Fin n → Fin n → CC K) :
    ∀ (pv : List (Fin n)) (st : (Fin n → CC K) × (Fin n → CC K)) (j : Fin n),
      ((pvLoop Ybus st pv).2 j).re = (st.2 j).re := by
  intro pv
  induction pv with
  | nil => intro st j; rfl
  | cons k rest ih =>
    intro st j
    rw [pvLoop_cons, ih _ j, pvStep_snd_re Ybus st k j]

theorem renorm_not_mem (sqrt : K → K) (Vm : Fin n → K) (pv : List (Fin n))
    (V : Fin n → CC K) (j : Fin n) (h : j ∉ pv) :
    renorm sqrt Vm pv V j = V j := by
  simp [renorm, h]

theorem renorm_mem (sqrt : K → K) (Vm : Fin n → K) (pv : List (Fin n))
    (V : Fin n → CC K) (j : Fin n) (h : j ∈ pv) :
    renorm sqrt Vm pv V j =
      CC.ofRe (Vm j) * V j / CC.ofRe (CC.cabs sqrt (V j)) := by
  simp [renorm, h]

end GS

namespace GS

variable {K : Type} [LinearOrderedField K] {n : ℕ}

theorem sweep_pv_nil (sqrt : K → K) (Ybus : Fin n → Fin n → CC K)
    (Vm : Fin n → K) (pq : List (Fin n))
    (st : (Fin n → CC K) × (Fin n → CC K)) :
    sweep sqrt Ybus Vm [] pq st = (pqSweep Ybus st.2 st.1 pq, st.2) :=
  rfl

theorem sweep_pv_cons (sqrt : K → K) (Ybus : Fin n → Fin n → CC K)
    (Vm : Fin n → K) (k : Fin n) (pvr pq : List (Fin n))
    (st : (Fin n → CC K) × (Fin n → CC K)) :
    sweep sqrt Ybus Vm (k :: pvr) pq st =
      ((renorm sqrt Vm (k :: pvr)
        (pvLoop Ybus (pqSweep Ybus st.2 st.1 pq, st.2) (k :: pvr)).1),
       (pvLoop Ybus (pqSweep Ybus st.2 st.1 pq, st.2) (k :: pvr)).2) :=
  rfl

theorem sweep_fst_not_mem (sqrt : K → K) (Ybus : Fin n → Fin n → CC K)
    (Vm : Fin n → K) (pv pq : List (Fin n))
    (st : (Fin n → CC K) × (Fin n → CC K)) (j : Fin n)
    (h1 : j ∉ pv) (h2 : j ∉ pq) :
    (sweep sqrt Ybus Vm pv pq st).1 j = st.1 j := by
  cases pv with
  | nil =>
    rw [sweep_pv_nil]
    exact pqSweep_not_mem Ybus st.2 pq st.1 j h2
  | cons k pvr =>
    rw [sweep_pv_cons]
    show renorm sqrt Vm (k :: pvr) _ j = st.1 j
    rw [renorm_not_mem sqrt Vm _ _ j h1,
        pvLoop_fst_not_mem Ybus (k :: pvr) _ j h1]
    exact pqSweep_not_mem Ybus st.2 pq st.1 j h2

theorem sweep_snd_not_mem (sqrt : K → K) (Ybus : Fin n → Fin n → CC K)
    (Vm : Fin n → K) (pv pq : List (Fin n))
    (st : (Fin n → CC K) × (Fin n → CC K)) (j : Fin n)
    (h1 : j ∉ pv) :
    (sweep sqrt Ybus Vm pv pq st).2 j = st.2 j := by
  cases pv with
  | nil => rfl
  | cons k pvr =>
    rw [sweep_pv_cons]
    exact pvLoop_snd_not_mem Ybus (k :: pvr) _ j h1

theorem sweep_snd_re (sqrt : K → K) (Ybus : Fin n → Fin n → CC K)
    (Vm : Fin n → K) (pv pq : List (Fin n))
    (st : (Fin n → CC K) × (Fin n → CC K)) (j : Fin n) :
    ((sweep sqrt Ybus Vm pv pq st).2 j).re = (st.2 j).re := by
  cases pv with
  | nil => rfl
  | cons k pvr =>
    rw [sweep_pv_cons]
    exact pvLoop_snd_re Ybus (k :: pvr) _ j

theorem sweep_snd_pv_nil (sqrt : K → K) (Ybus : Fin n → Fin n → CC K)
    (Vm : Fin n → K) (pq : List (Fin n))
    (st : (Fin n → CC K) × (Fin n → CC K)) :
    (sweep sqrt Ybus Vm [] pq st).2 = st.2 :=
  rfl

theorem loop_zero (sqrt : K → K) (tol : K) (Ybus : Fin n → Fin n → CC K)
    (Vm : Fin n → K) (pv pq : List (Fin n))
    (st : (Fin n → CC K) × (Fin n → CC K)) (i : ℕ) :
    loop sqrt tol Ybus Vm pv pq 0 st i = ⟨st.1, st.2, false, i⟩ :=
  rfl

theorem loop_succ (sqrt : K → K) (tol : K) (Ybus : Fin n → Fin n → CC K)
    (Vm : Fin n → K) (pv pq : List (Fin n)) (fuel : ℕ)
    (st : (Fin n → CC K) × (Fin n → CC K)) (i : ℕ) :
    loop sqrt tol Ybus Vm pv pq (fuel + 1) st i =
      (if normInf (Fvec Ybus (sweep sqrt Ybus Vm pv pq st).2
            (sweep sqrt Ybus Vm pv pq st).1 pv pq) < tol then
        ⟨(sweep sqrt Ybus Vm pv pq st).1,
         (sweep sqrt Ybus Vm pv pq st).2, true, i + 1⟩
      else
        loop sqrt tol Ybus Vm pv pq fuel (sweep sqrt Ybus Vm pv pq st) (i + 1)) :=
  rfl

theorem loop_V_not_mem (sqrt : K → K) (tol : K) (Ybus : Fin n → Fin n → CC K)
    (Vm : Fin n → K) (pv pq : List (Fin n)) (j : Fin n)
    (h1 : j ∉ pv) (h2 : j ∉ pq) :
    ∀ (fuel : ℕ) (st : (Fin n → CC K) × (Fin n → CC K)) (i : ℕ),
      (loop sqrt tol Ybus Vm pv pq fuel st i).V j = st.1 j := by
  intro fuel
  induction fuel with
  | zero => intro st i; rfl
  | succ fuel ih =>
    intro st i
    rw [loop_succ]
    split
    · exact sweep_fst_not_mem sqrt Ybus Vm pv pq st j h1 h2
    · rw [ih _ (i + 1)]
      exact sweep_fst_not_mem sqrt Ybus Vm pv pq st j h1 h2

theorem loop_S_not_mem (sqrt : K → K) (tol : K) (Ybus : Fin n → Fin n → CC K)
    (Vm : Fin n → K) (pv pq : List (Fin n)) (j : Fin n)
    (h1 : j ∉ pv) :
    ∀ (fuel : ℕ) (st : (Fin n → CC K) × (Fin n → CC K)) (i : ℕ),
      (loop sqrt tol Ybus Vm pv pq fuel st i).Sbus j = st.2 j := by
  intro fuel
  induction fuel with
  | zero => intro st i; rfl
  | succ fuel ih =>
    intro st i
    rw [loop_succ]
    split
    · exact sweep_snd_not_mem sqrt Ybus Vm pv pq st j h1
    · rw [ih _ (i + 1)]
      exact sweep_snd_not_mem sqrt Ybus Vm pv pq st j h1

theorem loop_S_re (sqrt : K → K) (tol : K) (Ybus : Fin n → Fin n → CC K)
    (Vm : Fin n → K) (pv pq : List (Fin n)) (j : Fin n) :
    ∀ (fuel : ℕ) (st : (Fin n → CC K) × (Fin n → CC K)) (i : ℕ),
      ((loop sqrt tol Ybus Vm pv pq fuel st i).Sbus j).re = (st.2 j).re := by
  intro fuel
  induction fuel with
  | zero => intro st i; rfl
  | succ fuel ih =>
    intro st i
    rw [loop_succ]
    split
    · exact sweep_snd_re sqrt Ybus Vm pv pq st j
    · rw [ih _ (i + 1)]
      exact sweep_snd_re sqrt Ybus Vm pv pq st j

theorem loop_S_pv_nil (sqrt : K → K) (tol : K) (Ybus : Fin n → Fin n → CC K)
    (Vm : Fin n → K) (pq : List (Fin n)) :
    ∀ (fuel : ℕ) (st : (Fin n → CC K) × (Fin n → CC K)) (i : ℕ),
      (loop sqrt tol Ybus Vm [] pq fuel st i).Sbus = st.2 := by
  intro fuel
  induction fuel with
  | zero => intro st i; rfl
  | succ fuel ih =>
    intro st i
    rw [loop_succ]
    split
    · rfl
    · rw [ih _ (i + 1)]
      rfl

theorem loop_iters_le (sqrt : K → K) (tol : K) (Ybus : Fin n → Fin n → CC K)
    (Vm : Fin n → K) (pv pq : List (Fin n)) :
    ∀ (fuel : ℕ) (st : (Fin n → CC K) × (Fin n → CC K)) (i : ℕ),
      (loop sqrt tol Ybus Vm pv pq fuel st i).iters ≤ i + fuel := by
  intro fuel
  induction fuel with
  | zero => intro st i; exact Nat.le_refl i
  | succ fuel ih =>
    intro st i
    rw [loop_succ]
    split
    · show i + 1 ≤ i + (fuel + 1)
      omega
    · calc (loop sqrt tol Ybus Vm pv pq fuel _ (i + 1)).iters
          ≤ i + 1 + fuel := ih _ (i + 1)
        _ ≤ i + (fuel + 1) := by omega

theorem loop_iters_ge (sqrt : K → K) (tol : K) (Ybus : Fin n → Fin n → CC K)
    (Vm : Fin n → K) (pv pq : List (Fin n)) :
    ∀ (fuel : ℕ) (st : (Fin n → CC K) × (Fin n → CC K)) (i : ℕ),
      i ≤ (loop sqrt tol Ybus Vm pv pq fuel st i).iters := by
  intro fuel
  induction fuel with
  | zero => intro st i; exact Nat.le_refl i
  | succ fuel ih =>
    intro st i
    rw [loop_succ]
    split
    · show i ≤ i + 1
      omega
    · calc i ≤ i + 1 := by omega
        _ ≤ (loop sqrt tol Ybus Vm pv pq fuel _ (i + 1)).iters := ih _ (i + 1)

theorem loop_converged_norm (sqrt : K → K) (tol : K)
    (Ybus : Fin n → Fin n → CC K) (Vm : Fin n → K) (pv pq : List (Fin n)) :
    ∀ (fuel : ℕ) (st : (Fin n → CC K) × (Fin n → CC K)) (i : ℕ),
      (loop sqrt tol Ybus Vm pv pq fuel st i).converged = true →
        normInf (Fvec Ybus (loop sqrt tol Ybus Vm pv pq fuel st i).Sbus
          (loop sqrt tol Ybus Vm pv pq fuel st i).V pv pq) < tol := by
  intro fuel
  induction fuel with
  | zero => intro st i h; exact absurd h (by simp [loop_zero])
  | succ fuel ih =>
    intro st i
    rw [loop_succ]
    split
    · intro _
      assumption
    · exact ih _ (i + 1)

end GS

namespace GS

variable {K : Type} [LinearOrderedField K] {n : ℕ}

theorem gausspf_pos (sqrt : K → K) (tol : K) (max_it : ℤ)
    (Ybus : Fin n → Fin n → CC K) (Sbus V0 : Fin n → CC K)
    (ref : Fin n) (pv pq : List (Fin n))
    (h : normInf (F0vec Ybus Sbus V0 pv pq) < tol) :
    gausspf sqrt tol max_it Ybus Sbus V0 ref pv pq = ⟨V0, Sbus, true, 0⟩ := by
  simp only [gausspf, if_pos h]

theorem gausspf_neg (sqrt : K → K) (tol : K) (max_it : ℤ)
    (Ybus : Fin n → Fin n → CC K) (Sbus V0 : Fin n → CC K)
    (ref : Fin n) (pv pq : List (Fin n))
    (h : ¬ normInf (F0vec Ybus Sbus V0 pv pq) < tol) :
    gausspf sqrt tol max_it Ybus Sbus V0 ref pv pq =
      loop sqrt tol Ybus (fun j => CC.cabs sqrt (V0 j)) pv pq
        max_it.toNat (V0, Sbus) 0 := by
  simp only [gausspf, if_neg h]

end GS

/-! ## Claim theorems -/

namespace GS

variable {K : Type} [LinearOrderedField K] {n : ℕ}

/-- C1: in the PQ-bus sweep the buses are processed in list (increasing
index) order; each correction `Δ = (conj(Sbus[k]/V[k]) − Σ_j Y[k,j]·V[j])
/ Y[k,k]` is computed from the voltage vector holding all updates of
earlier buses and is assigned immediately, so later buses read the
already-updated values — Gauss-Seidel, not Jacobi, as witnessed by a
concrete 3-bus system on which the sequential sweep differs from the
Jacobi sweep built from start-of-sweep values. -/
theorem pq_update_is_gauss_seidel
    (Ybus : Fin n → Fin n → CC K) (S V : Fin n → CC K)
    (l1 l2 : List (Fin n)) (k : Fin n) :
    pqSweep Ybus S V (l1 ++ k :: l2)
      = pqSweep Ybus S (busUpdate Ybus S (pqSweep Ybus S V l1) k) l2
    ∧ busUpdate Ybus S (pqSweep Ybus S V l1) k k
        = pqSweep Ybus S V l1 k
          + (CC.conj (S k / pqSweep Ybus S V l1 k)
              - dotRow (Ybus k) (pqSweep Ybus S V l1)) / Ybus k k
    ∧ pqSweep GSEx.Y3 GSEx.S3 GSEx.V3 [1, 2] 2
        ≠ jacobiPQSweep GSEx.Y3 GSEx.S3 GSEx.V3 [1, 2] 2 := by
  refine ⟨?_, ?_, ?_⟩
  · rw [pqSweep_append, pqSweep_cons]
  · exact Function.update_same _ _ _
  · intro hcontra
    rw [show pqSweep GSEx.Y3 GSEx.S3 GSEx.V3 [1, 2]
          = busUpdate GSEx.Y3 GSEx.S3
              (busUpdate GSEx.Y3 GSEx.S3 GSEx.V3 1) 2 from rfl] at hcontra
    simp +decide [jacobiPQSweep, busUpdate, dotRow, GSEx.Y3, GSEx.S3,
      GSEx.V3, GSEx.q, Fin.sum_univ_three, CC.mul_def, CC.div_def,
      CC.add_def, CC.sub_def, CC.conj, CC.normSq, Function.update_apply,
      CC.ext_iff] at hcontra
    norm_num at hcontra

/-- C2 (counterexample): the pre-loop mismatch vector of the code is
`r_[mis[pv ++ pq].real, mis[pq].imag]`, not the spec's
"swing+PQ real, PQ imaginary": on a 2-bus system with a large mismatch
at the swing bus only, the two vectors differ, and the solver returns
converged with 0 iterations although the spec's vector has infinity
norm 5 ≥ tol = 1. -/
theorem initial_mismatch_swing_counterexample :
    F0vec GSEx.Y2 GSEx.S2 GSEx.V2 [1] []
        ≠ F0vecSpec GSEx.Y2 GSEx.S2 GSEx.V2 0 []
    ∧ gausspf id (1 : ℚ) 10 GSEx.Y2 GSEx.S2 GSEx.V2 0 [1] []
        = ⟨GSEx.V2, GSEx.S2, true, 0⟩
    ∧ ¬ normInf (F0vecSpec GSEx.Y2 GSEx.S2 GSEx.V2 0 []) < (1 : ℚ) := by
  refine ⟨?_, ?_, ?_⟩
  · norm_num [F0vec, F0vecSpec, mis, dotRow, normInf, GSEx.Y2, GSEx.S2,
      GSEx.V2, GSEx.q, Fin.sum_univ_two, CC.mul_def, CC.sub_def,
      CC.add_def, CC.conj]
  · exact gausspf_pos _ _ _ _ _ _ _ _ _ (by
      norm_num [F0vec, mis, dotRow, normInf, GSEx.Y2, GSEx.S2, GSEx.V2,
        GSEx.q, Fin.sum_univ_two, CC.mul_def, CC.sub_def, CC.add_def,
        CC.conj])
  · norm_num [F0vecSpec, mis, dotRow, normInf, GSEx.Y2, GSEx.S2, GSEx.V2,
      GSEx.q, Fin.sum_univ_two, CC.mul_def, CC.sub_def, CC.add_def,
      CC.conj]

/-- C2 (amended): the mismatch vector checked before the first sweep is
the real part of `V ⊙ conj(Ybus·V) − Sbus` at the PV buses and the PQ
buses (in that order) followed by the imaginary part at the PQ buses;
if its infinity norm is below tolerance the solver returns immediately
with the converged flag set and iteration count 0, executing no sweep,
and otherwise (with a positive iteration cap) at least one sweep runs. -/
theorem initial_mismatch_check (sqrt : K → K) (tol : K) (max_it : ℤ)
    (Ybus : Fin n → Fin n → CC K) (Sbus V0 : Fin n → CC K)
    (ref : Fin n) (pv pq : List (Fin n)) :
    (normInf (F0vec Ybus Sbus V0 pv pq) < tol →
      gausspf sqrt tol max_it Ybus Sbus V0 ref pv pq = ⟨V0, Sbus, true, 0⟩)
    ∧ (¬ normInf (F0vec Ybus Sbus V0 pv pq) < tol → 0 < max_it →
        1 ≤ (gausspf sqrt tol max_it Ybus Sbus V0 ref pv pq).iters) := by
  constructor
  · intro h
    exact gausspf_pos sqrt tol max_it Ybus Sbus V0 ref pv pq h
  · intro h hpos
    rw [gausspf_neg sqrt tol max_it Ybus Sbus V0 ref pv pq h]
    have hfuel : max_it.toNat = (max_it.toNat - 1) + 1 := by omega
    rw [hfuel, loop_succ]
    split
    · exact Nat.le_refl 1
    · exact loop_iters_ge sqrt tol Ybus _ pv pq _ _ 1

/-- Witness for the amended C2, applying it on both sides: a 2-bus system
whose initial mismatch already passes the check (immediate return), and a
3-bus system whose initial mismatch fails it (at least one sweep runs). -/
theorem initial_mismatch_check_witness :
    gausspf id (1 : ℚ) 10 GSEx.Y2 GSEx.S2 GSEx.V2 0 [1] []
        = ⟨GSEx.V2, GSEx.S2, true, 0⟩
    ∧ 1 ≤ (gausspf id (1/2 : ℚ) 10 GSEx.Y3 GSEx.S3 GSEx.V3 0 [] [1, 2]).iters := by
  constructor
  · exact (initial_mismatch_check id 1 10 GSEx.Y2 GSEx.S2 GSEx.V2
        0 [1] []).1 (by
      norm_num [F0vec, mis, dotRow, normInf, GSEx.Y2, GSEx.S2, GSEx.V2,
        GSEx.q, Fin.sum_univ_two, CC.mul_def, CC.sub_def, CC.add_def,
        CC.conj])
  · exact (initial_mismatch_check id (1/2) 10 GSEx.Y3 GSEx.S3 GSEx.V3
        0 [] [1, 2]).2 (by
      simp +decide [F0vec, mis, dotRow, normInf, GSEx.Y3, GSEx.S3, GSEx.V3,
        GSEx.q, Fin.sum_univ_three, CC.mul_def, CC.sub_def, CC.add_def,
        CC.conj]
      norm_num) (by norm_num)

/-- C3: during a sweep the PV buses are processed in list order, each step
first setting `Sbus[k] ← Re(Sbus[k]) + j·Im(V[k]·conj(Σ_j Y[k,j]·V[j]))`
(active part unchanged) and then applying the same voltage-correction
formula as at PQ buses with the refreshed `Sbus[k]`; when the PV set is
empty the PV procedure never executes and `Sbus` is never altered by the
whole solve. -/
theorem pv_update_refresh_and_empty_frame (Ybus : Fin n → Fin n → CC K) :
    (∀ (st : (Fin n → CC K) × (Fin n → CC K)) (l1 l2 : List (Fin n))
        (k : Fin n),
       pvLoop Ybus st (l1 ++ k :: l2)
         = pvLoop Ybus (pvStep Ybus (pvLoop Ybus st l1) k) l2)
    ∧ (∀ (st : (Fin n → CC K) × (Fin n → CC K)) (k : Fin n),
        (pvStep Ybus st k).2
         = Function.update st.2 k
             ⟨(st.2 k).re, (st.1 k * CC.conj (dotRow (Ybus k) st.1)).im⟩)
    ∧ (∀ (st : (Fin n → CC K) × (Fin n → CC K)) (k : Fin n),
        (pvStep Ybus st k).1 = busUpdate Ybus (pvStep Ybus st k).2 st.1 k)
    ∧ (∀ (sqrt : K → K) (tol : K) (max_it : ℤ) (Sbus V0 : Fin n → CC K)
        (ref : Fin n) (pq : List (Fin n)),
        (gausspf sqrt tol max_it Ybus Sbus V0 ref [] pq).Sbus = Sbus) := by
  refine ⟨?_, ?_, ?_, ?_⟩
  · intro st l1 l2 k
    rw [pvLoop_append, pvLoop_cons]
  · intro st k
    rfl
  · intro st k
    rfl
  · intro sqrt tol max_it Sbus V0 ref pq
    by_cases h : normInf (F0vec Ybus Sbus V0 [] pq) < tol
    · rw [gausspf_pos sqrt tol max_it Ybus Sbus V0 ref [] pq h]
    · rw [gausspf_neg sqrt tol max_it Ybus Sbus V0 ref [] pq h]
      exact loop_S_pv_nil sqrt tol Ybus _ pq _ _ 0

end GS

namespace CC

theorem cabs_renorm (a : ℝ) (ha : 0 ≤ a) (z : CC ℝ) (hz : z ≠ 0) :
    cabs Real.sqrt (ofRe a * z / ofRe (cabs Real.sqrt z)) = a := by
  have hs0 : 0 ≤ normSq z :=
    add_nonneg (mul_self_nonneg _) (mul_self_nonneg _)
  have hs : 0 < normSq z :=
    lt_of_le_of_ne hs0 (fun h => hz (normSq_eq_zero_iff.mp h.symm))
  have hc2 : Real.sqrt (normSq z) * Real.sqrt (normSq z) = normSq z :=
    Real.mul_self_sqrt hs0
  have hcne : Real.sqrt (normSq z) ≠ 0 :=
    ne_of_gt (Real.sqrt_pos.mpr hs)
  have key : normSq (ofRe a * z / ofRe (cabs Real.sqrt z)) = a * a := by
    simp only [mul_def, div_def, ofRe, cabs, normSq] at *
    field_simp
    ring_nf
    ring_nf at hc2
    rw [hc2]
    ring
  show Real.sqrt (normSq (ofRe a * z / ofRe (cabs Real.sqrt z))) = a
  rw [key, Real.sqrt_mul_self ha]

end CC

namespace GS


theorem sweep_fst_pv_cons {n : ℕ} (sqrt : ℝ → ℝ) (Ybus : Fin n → Fin n → CC ℝ)
    (Vm : Fin n → ℝ) (k' : Fin n) (pvr pq : List (Fin n))
    (st : (Fin n → CC ℝ) × (Fin n → CC ℝ)) :
    (sweep sqrt Ybus Vm (k' :: pvr) pq st).1 =
      renorm sqrt Vm (k' :: pvr)
        (pvLoop Ybus (pqSweep Ybus st.2 st.1 pq, st.2) (k' :: pvr)).1 := by
  rw [sweep_pv_cons]

/-- C4: after a completed sweep the voltage magnitude of each PV bus `k`
equals the set-point `|V0[k]|` captured from `V0` before any mutation
(exactly, in exact real arithmetic, provided the voltage entering the
renormalization is nonzero); moreover the sweep applies the
renormalization `V[k] ← |V0[k]|·V[k]/|V[k]|` to all PV buses in one
batch pass after the per-bus PV loop, not fused into it. -/
theorem pv_magnitude_setpoint_after_sweep {n : ℕ}
    (Ybus : Fin n → Fin n → CC ℝ) (V0 : Fin n → CC ℝ)
    (pv pq : List (Fin n)) (st : (Fin n → CC ℝ) × (Fin n → CC ℝ))
    (k : Fin n) (hk : k ∈ pv)
    (hne : (pvLoop Ybus (pqSweep Ybus st.2 st.1 pq, st.2) pv).1 k ≠ 0) :
    CC.cabs Real.sqrt
        ((sweep Real.sqrt Ybus (fun j => CC.cabs Real.sqrt (V0 j)) pv pq st).1 k)
      = CC.cabs Real.sqrt (V0 k)
    ∧ (sweep Real.sqrt Ybus (fun j => CC.cabs Real.sqrt (V0 j)) pv pq st).1
        = renorm Real.sqrt (fun j => CC.cabs Real.sqrt (V0 j)) pv
            (pvLoop Ybus (pqSweep Ybus st.2 st.1 pq, st.2) pv).1 := by
  cases pv with
  | nil => exact absurd hk (by simp)
  | cons k' pvr =>
    have hsw := sweep_fst_pv_cons Real.sqrt Ybus
      (fun j => CC.cabs Real.sqrt (V0 j)) k' pvr pq st
    constructor
    · rw [hsw, renorm_mem Real.sqrt _ (k' :: pvr) _ k hk]
      exact CC.cabs_renorm (CC.cabs Real.sqrt (V0 k)) (Real.sqrt_nonneg _)
        _ hne
    · exact hsw

/-- Witness for C4 on a concrete 2-bus system over `ℝ` with one PV bus. -/
theorem pv_magnitude_setpoint_after_sweep_witness :
    CC.cabs Real.sqrt
        ((sweep Real.sqrt GSEx.Y2R (fun j => CC.cabs Real.sqrt (GSEx.V2R j))
           [1] [] (GSEx.V2R, GSEx.S2R)).1 1)
      = CC.cabs Real.sqrt (GSEx.V2R 1)
    ∧ (sweep Real.sqrt GSEx.Y2R (fun j => CC.cabs Real.sqrt (GSEx.V2R j))
        [1] [] (GSEx.V2R, GSEx.S2R)).1
        = renorm Real.sqrt (fun j => CC.cabs Real.sqrt (GSEx.V2R j)) [1]
            (pvLoop GSEx.Y2R
              (pqSweep GSEx.Y2R GSEx.S2R GSEx.V2R [], GSEx.S2R) [1]).1 := by
  refine pv_magnitude_setpoint_after_sweep GSEx.Y2R GSEx.V2R [1] []
    (GSEx.V2R, GSEx.S2R) 1 (by simp) ?_
  simp +decide [pvLoop, pvStep, busUpdate, pqSweep, dotRow,
    Fin.sum_univ_two, GSEx.Y2R, GSEx.V2R, GSEx.S2R, CC.mul_def,
    CC.div_def, CC.add_def, CC.sub_def, CC.conj, CC.normSq,
    Function.update_apply, CC.ext_iff,
    show (0 : CC ℝ) = ⟨0, 0⟩ from rfl]

variable {K : Type} [LinearOrderedField K] {n : ℕ}

/-- C5: with disjoint bus-index sets (the reference bus in neither `pv`
nor `pq`), the reference bus's voltage entry of the result is exactly its
value in `V0` after any number of iterations: no update ever writes the
reference index. -/
theorem ref_bus_voltage_untouched (sqrt : K → K) (tol : K) (max_it : ℤ)
    (Ybus : Fin n → Fin n → CC K) (Sbus V0 : Fin n → CC K)
    (ref : Fin n) (pv pq : List (Fin n))
    (h1 : ref ∉ pv) (h2 : ref ∉ pq) :
    (gausspf sqrt tol max_it Ybus Sbus V0 ref pv pq).V ref = V0 ref := by
  by_cases h : normInf (F0vec Ybus Sbus V0 pv pq) < tol
  · rw [gausspf_pos sqrt tol max_it Ybus Sbus V0 ref pv pq h]
  · rw [gausspf_neg sqrt tol max_it Ybus Sbus V0 ref pv pq h]
    exact loop_V_not_mem sqrt tol Ybus _ pv pq ref h1 h2 _ _ 0

/-- Witness for C5 on a concrete 3-bus system that runs actual sweeps
(one PV and one PQ bus). -/
theorem ref_bus_voltage_untouched_witness :
    (gausspf id (1/100 : ℚ) 2 GSEx.Y3 GSEx.S3 GSEx.V3 0 [1] [2]).V 0
      = GSEx.V3 0 :=
  ref_bus_voltage_untouched id (1/100) 2 GSEx.Y3 GSEx.S3 GSEx.V3 0 [1] [2]
    (by decide) (by decide)

/-- C6: whenever the tolerance exceeds the initial mismatch infinity
norm, the solver returns converged with iteration count 0 and the voltage
vector equal to `V0` at every bus. -/
theorem immediate_convergence_returns_v0 (sqrt : K → K) (tol : K)
    (max_it : ℤ) (Ybus : Fin n → Fin n → CC K) (Sbus V0 : Fin n → CC K)
    (ref : Fin n) (pv pq : List (Fin n))
    (h : normInf (F0vec Ybus Sbus V0 pv pq) < tol) :
    (gausspf sqrt tol max_it Ybus Sbus V0 ref pv pq).V = V0
    ∧ (gausspf sqrt tol max_it Ybus Sbus V0 ref pv pq).converged = true
    ∧ (gausspf sqrt tol max_it Ybus Sbus V0 ref pv pq).iters = 0 := by
  rw [gausspf_pos sqrt tol max_it Ybus Sbus V0 ref pv pq h]
  exact ⟨rfl, rfl, rfl⟩

/-- Witness for C6 on the 2-bus system whose initial mismatch at the PV
bus is zero. -/
theorem immediate_convergence_returns_v0_witness :
    (gausspf id (1 : ℚ) 10 GSEx.Y2 GSEx.S2 GSEx.V2 0 [1] []).V = GSEx.V2
    ∧ (gausspf id (1 : ℚ) 10 GSEx.Y2 GSEx.S2 GSEx.V2 0 [1] []).converged = true
    ∧ (gausspf id (1 : ℚ) 10 GSEx.Y2 GSEx.S2 GSEx.V2 0 [1] []).iters = 0 :=
  immediate_convergence_returns_v0 id 1 10 GSEx.Y2 GSEx.S2 GSEx.V2
    0 [1] [] (by
      norm_num [F0vec, mis, dotRow, normInf, GSEx.Y2, GSEx.S2, GSEx.V2,
        GSEx.q, Fin.sum_univ_two, CC.mul_def, CC.sub_def, CC.add_def,
        CC.conj])

/-- C7: with a nonnegative iteration cap, the returned iteration count
never exceeds `max_it`, and whenever the mismatch at the returned state
is still at or above tolerance the returned convergence flag is false. -/
theorem iteration_cap (sqrt : K → K) (tol : K) (max_it : ℤ)
    (Ybus : Fin n → Fin n → CC K) (Sbus V0 : Fin n → CC K)
    (ref : Fin n) (pv pq : List (Fin n)) (h : 0 ≤ max_it) :
    (((gausspf sqrt tol max_it Ybus Sbus V0 ref pv pq).iters : ℤ) ≤ max_it)
    ∧ (tol ≤ normInf (Fvec Ybus
          (gausspf sqrt tol max_it Ybus Sbus V0 ref pv pq).Sbus
          (gausspf sqrt tol max_it Ybus Sbus V0 ref pv pq).V pv pq) →
        (gausspf sqrt tol max_it Ybus Sbus V0 ref pv pq).converged = false) := by
  by_cases h0 : normInf (F0vec Ybus Sbus V0 pv pq) < tol
  · rw [gausspf_pos sqrt tol max_it Ybus Sbus V0 ref pv pq h0]
    constructor
    · exact_mod_cast h
    · intro hge
      exfalso
      rw [← F0vec_eq_Fvec Ybus Sbus V0 pv pq] at hge
      exact absurd h0 (not_lt.mpr hge)
  · rw [gausspf_neg sqrt tol max_it Ybus Sbus V0 ref pv pq h0]
    constructor
    · have hle := loop_iters_le sqrt tol Ybus
        (fun j => CC.cabs sqrt (V0 j)) pv pq max_it.toNat (V0, Sbus) 0
      omega
    · intro hge
      cases hc : (loop sqrt tol Ybus (fun j => CC.cabs sqrt (V0 j)) pv pq
          max_it.toNat (V0, Sbus) 0).converged
      · rfl
      · exfalso
        have hn := loop_converged_norm sqrt tol Ybus
          (fun j => CC.cabs sqrt (V0 j)) pv pq max_it.toNat (V0, Sbus) 0 hc
        exact absurd hn (not_lt.mpr hge)

/-- Witness for C7: a cap of 0 with an unconverged initial mismatch. -/
theorem iteration_cap_witness :
    (((gausspf id (1/2 : ℚ) 0 GSEx.Y3 GSEx.S3 GSEx.V3 0 [] [1, 2]).iters : ℤ) ≤ 0)
    ∧ (gausspf id (1/2 : ℚ) 0 GSEx.Y3 GSEx.S3 GSEx.V3 0 [] [1, 2]).converged
        = false := by
  have happ := iteration_cap id (1/2 : ℚ) 0 GSEx.Y3 GSEx.S3 GSEx.V3
    0 [] [1, 2] (by norm_num)
  refine ⟨happ.1, happ.2 ?_⟩
  have hg : gausspf id (1/2 : ℚ) 0 GSEx.Y3 GSEx.S3 GSEx.V3 0 [] [1, 2]
      = ⟨GSEx.V3, GSEx.S3, false, 0⟩ := by
    rw [gausspf_neg id (1/2 : ℚ) 0 GSEx.Y3 GSEx.S3 GSEx.V3 0 [] [1, 2]
      (by
        simp +decide [F0vec, mis, dotRow, normInf, GSEx.Y3, GSEx.S3,
          GSEx.V3, GSEx.q, Fin.sum_univ_three, CC.mul_def, CC.sub_def,
          CC.add_def, CC.conj]
        norm_num)]
    rfl
  rw [hg]
  show (1/2 : ℚ) ≤ normInf (Fvec GSEx.Y3 GSEx.S3 GSEx.V3 [] [1, 2])
  simp +decide [Fvec, mis, dotRow, normInf, GSEx.Y3, GSEx.S3, GSEx.V3,
    GSEx.q, Fin.sum_univ_three, CC.mul_def, CC.sub_def, CC.add_def,
    CC.conj]
  norm_num

theorem loopV_succ (verbose : ℕ) (sqrt : K → K) (tol : K)
    (Ybus : Fin n → Fin n → CC K) (Vm : Fin n → K) (pv pq : List (Fin n))
    (fuel : ℕ) (st : (Fin n → CC K) × (Fin n → CC K)) (i : ℕ)
    (log : List (Msg K)) :
    loopV verbose sqrt tol Ybus Vm pv pq (fuel + 1) st i log =
      (if normInf (Fvec Ybus (sweep sqrt Ybus Vm pv pq st).2
            (sweep sqrt Ybus Vm pv pq st).1 pv pq) < tol then
        (⟨(sweep sqrt Ybus Vm pv pq st).1,
          (sweep sqrt Ybus Vm pv pq st).2, true, i + 1⟩,
          (log ++ (if 1 < verbose then
            [Msg.trace (i + 1) (normInf (Fvec Ybus
              (sweep sqrt Ybus Vm pv pq st).2
              (sweep sqrt Ybus Vm pv pq st).1 pv pq))] else []))
            ++ (if 0 < verbose then [Msg.convergedAt (i + 1)] else []))
      else
        loopV verbose sqrt tol Ybus Vm pv pq fuel
          (sweep sqrt Ybus Vm pv pq st) (i + 1)
          (log ++ (if 1 < verbose then
            [Msg.trace (i + 1) (normInf (Fvec Ybus
              (sweep sqrt Ybus Vm pv pq st).2
              (sweep sqrt Ybus Vm pv pq st).1 pv pq))] else []))) :=
  rfl

theorem loopV_fst (verbose : ℕ) (sqrt : K → K) (tol : K)
    (Ybus : Fin n → Fin n → CC K) (Vm : Fin n → K) (pv pq : List (Fin n)) :
    ∀ (fuel : ℕ) (st : (Fin n → CC K) × (Fin n → CC K)) (i : ℕ)
      (log : List (Msg K)),
      (loopV verbose sqrt tol Ybus Vm pv pq fuel st i log).1
        = loop sqrt tol Ybus Vm pv pq fuel st i := by
  intro fuel
  induction fuel with
  | zero => intro st i log; rfl
  | succ fuel ih =>
    intro st i log
    rw [loopV_succ, loop_succ]
    by_cases hc : normInf (Fvec Ybus (sweep sqrt Ybus Vm pv pq st).2
        (sweep sqrt Ybus Vm pv pq st).1 pv pq) < tol
    · rw [if_pos hc, if_pos hc]
    · rw [if_neg hc, if_neg hc]
      exact ih _ _ _

theorem gausspfV_fst (verbose : ℕ) (sqrt : K → K) (tol : K) (max_it : ℤ)
    (Ybus : Fin n → Fin n → CC K) (Sbus V0 : Fin n → CC K)
    (ref : Fin n) (pv pq : List (Fin n)) :
    (gausspfV verbose sqrt tol max_it Ybus Sbus V0 ref pv pq).1
      = gausspf sqrt tol max_it Ybus Sbus V0 ref pv pq := by
  by_cases h : normInf (F0vec Ybus Sbus V0 pv pq) < tol
  · rw [gausspf_pos sqrt tol max_it Ybus Sbus V0 ref pv pq h]
    simp only [gausspfV, if_pos h]
  · rw [gausspf_neg sqrt tol max_it Ybus Sbus V0 ref pv pq h]
    simp only [gausspfV, if_neg h]
    exact loopV_fst verbose sqrt tol Ybus _ pv pq _ _ 0 _

/-- C8: two runs on identical numerical inputs but different verbosity
levels return the same triple (voltages, convergence flag, iteration
count): verbosity only controls the progress log. -/
theorem verbose_does_not_affect_result (v1 v2 : ℕ) (sqrt : K → K)
    (tol : K) (max_it : ℤ) (Ybus : Fin n → Fin n → CC K)
    (Sbus V0 : Fin n → CC K) (ref : Fin n) (pv pq : List (Fin n)) :
    (gausspfV v1 sqrt tol max_it Ybus Sbus V0 ref pv pq).1
      = (gausspfV v2 sqrt tol max_it Ybus Sbus V0 ref pv pq).1 := by
  rw [gausspfV_fst v1 sqrt tol max_it Ybus Sbus V0 ref pv pq,
      gausspfV_fst v2 sqrt tol max_it Ybus Sbus V0 ref pv pq]

/-- C9: the solver leaves `Sbus` unchanged at every non-PV index and
leaves the real (active) part of `Sbus` unchanged at every bus: the only
mutation of `Sbus` is the imaginary part at PV indices. -/
theorem sbus_frame (sqrt : K → K) (tol : K) (max_it : ℤ)
    (Ybus : Fin n → Fin n → CC K) (Sbus V0 : Fin n → CC K)
    (ref : Fin n) (pv pq : List (Fin n)) (k : Fin n) :
    (k ∉ pv →
      (gausspf sqrt tol max_it Ybus Sbus V0 ref pv pq).Sbus k = Sbus k)
    ∧ ((gausspf sqrt tol max_it Ybus Sbus V0 ref pv pq).Sbus k).re
        = (Sbus k).re := by
  by_cases h : normInf (F0vec Ybus Sbus V0 pv pq) < tol
  · rw [gausspf_pos sqrt tol max_it Ybus Sbus V0 ref pv pq h]
    exact ⟨fun _ => rfl, rfl⟩
  · rw [gausspf_neg sqrt tol max_it Ybus Sbus V0 ref pv pq h]
    exact ⟨fun hk => loop_S_not_mem sqrt tol Ybus _ pv pq k hk _ _ 0,
           loop_S_re sqrt tol Ybus _ pv pq k _ _ 0⟩

/-- Witness for C9 on a 3-bus system with one PV and one PQ bus, at the
reference index 0 (not a PV index). -/
theorem sbus_frame_witness :
    (gausspf id (1/100 : ℚ) 2 GSEx.Y3 GSEx.S3 GSEx.V3 0 [1] [2]).Sbus 0
      = GSEx.S3 0
    ∧ ((gausspf id (1/100 : ℚ) 2 GSEx.Y3 GSEx.S3 GSEx.V3 0 [1] [2]).Sbus 0).re
      = (GSEx.S3 0).re := by
  have h := sbus_frame id (1/100 : ℚ) 2 GSEx.Y3 GSEx.S3 GSEx.V3 0 [1] [2] 0
  exact ⟨h.1 (by decide), h.2⟩

/-- C10: a non-positive iteration cap with an unconverged initial
mismatch yields no sweep: the solver returns not-converged with 0
iterations and `V = V0`, raising no error. -/
theorem nonpositive_cap_no_sweep (sqrt : K → K) (tol : K) (max_it : ℤ)
    (Ybus : Fin n → Fin n → CC K) (Sbus V0 : Fin n → CC K)
    (ref : Fin n) (pv pq : List (Fin n))
    (h1 : max_it ≤ 0) (h2 : ¬ normInf (F0vec Ybus Sbus V0 pv pq) < tol) :
    gausspf sqrt tol max_it Ybus Sbus V0 ref pv pq = ⟨V0, Sbus, false, 0⟩ := by
  rw [gausspf_neg sqrt tol max_it Ybus Sbus V0 ref pv pq h2]
  have h3 : max_it.toNat = 0 := by omega
  rw [h3, loop_zero]

/-- Witness for C10 with cap −3 on the unconverged 3-bus PQ system. -/
theorem nonpositive_cap_no_sweep_witness :
    gausspf id (1/2 : ℚ) (-3) GSEx.Y3 GSEx.S3 GSEx.V3 0 [] [1, 2]
      = ⟨GSEx.V3, GSEx.S3, false, 0⟩ := by
  refine nonpositive_cap_no_sweep id (1/2) (-3) GSEx.Y3 GSEx.S3 GSEx.V3
    0 [] [1, 2] (by norm_num) ?_
  simp +decide [F0vec, mis, dotRow, normInf, GSEx.Y3, GSEx.S3, GSEx.V3,
    GSEx.q, Fin.sum_univ_three, CC.mul_def, CC.sub_def, CC.add_def,
    CC.conj]
  norm_num

end GS
